import Mathlib

/-!
Verification of the "logtriga" partial-SQL fragment parser from
`skytools/quoting.py`.

The Python source is shallowly embedded:
* Python exceptions (`Exception("syntax error")`, `KeyError`, `ValueError`,
  `IndexError`) become the error type `PErr` threaded through `Except`.
* the generator-with-`StopIteration` tokenizer becomes an explicit token
  list, with End-of-Stream modelled by list exhaustion; a grammar driver's
  outcome is the inductive `DRes` (normal return / `StopIteration`
  escape / raised syntax error).
* Python 2 strings are modelled as Lean `String` (lists of characters).
-/

/-- The failure kinds the Python code can raise.  `synError` is the single
`Exception("syntax error")`; `keyError` is the `KeyError` escaping from
`_esc_map[v]`; `valueError` is the `ValueError` from `chr(n)` with
`n > 255` (Python 2); `indexError` is the `IndexError` from indexing an
empty string. -/
inductive PErr where
  | synError
  | keyError
  | valueError
  | indexError
deriving DecidableEq, Repr

/-- The fixed escape table `_esc_map` of `quoting.py`. -/
def escMap (c : Char) : Option Char :=
  if c = 't' then some '\t'
  else if c = 'n' then some '\n'
  else if c = 'r' then some '\r'
  else if c = 'a' then some '\x07'
  else if c = 'b' then some '\x08'
  else if c = '\'' then some '\''
  else if c = '"' then some '"'
  else if c = '\\' then some '\\'
  else none

/-- Is `c` an octal digit (`[0-7]`)? -/
def isOct (c : Char) : Bool := '0' ≤ c && c ≤ '7'

/-- Numeric value of an octal digit. -/
def octVal (c : Char) : Nat := c.toNat - 48

/-- Value of a three-octal-digit escape (`int(v, 8)`). -/
def octTriple (a b c : Char) : Nat := octVal a * 64 + octVal b * 8 + octVal c

/-- The `unescape` scan on the character list, as performed by
`_esc_rc.sub(_sub_unescape, val)` with pattern `\\([0-7][0-7][0-7]|.)`.
At a backslash the regex prefers three octal digits (Python 2 `chr` raises
`ValueError` above 255), otherwise consumes one following character
(`.` does not match a newline, so a backslash before a newline or at the
end of the string is left as-is and scanning continues); a consumed
character outside `_esc_map` raises `KeyError`. -/
def unescapeL : List Char → Except PErr (List Char)
  | [] => Except.ok []
  | x :: rest =>
    if x = '\\' then
      match rest with
      | [] => Except.ok ['\\']
      | a :: b :: c :: rest3 =>
        if isOct a && isOct b && isOct c then
          if octTriple a b c ≤ 255 then
            (unescapeL rest3).map (fun r => Char.ofNat (octTriple a b c) :: r)
          else Except.error PErr.valueError
        else if a = '\n' then
          (unescapeL (b :: c :: rest3)).map (fun r => '\\' :: '\n' :: r)
        else
          match escMap a with
          | some e => (unescapeL (b :: c :: rest3)).map (fun r => e :: r)
          | none => Except.error PErr.keyError
      | a :: rest2 =>
        if a = '\n' then
          (unescapeL rest2).map (fun r => '\\' :: '\n' :: r)
        else
          match escMap a with
          | some e => (unescapeL rest2).map (fun r => e :: r)
          | none => Except.error PErr.keyError
    else (unescapeL rest).map (fun r => x :: r)

/-- Python `unescape(val)`: removes C-style escapes from a string. -/
def unescape (s : String) : Except PErr String :=
  (unescapeL s.data).map String.mk

/-- Whitespace skipped by the token pattern's leading `[ \t\r\n]*`. -/
def isWs (c : Char) : Bool := c = ' ' || c = '\t' || c = '\r' || c = '\n'

/-- First character of the identifier alternative `[a-z]` under `re.I`. -/
def isIdentStart (c : Char) : Bool :=
  ('a' ≤ c && c ≤ 'z') || ('A' ≤ c && c ≤ 'Z')

/-- Continuation characters of the identifier alternative `[a-z0-9_]*`
under `re.I`. -/
def isIdentCont (c : Char) : Bool :=
  isIdentStart c || ('0' ≤ c && c ≤ '9') || c = '_'

/-- Matching of the double-quoted alternative `["]([^"\\]+|\\.)*["]` after
its opening quote: returns the matched characters (closing quote included)
and the remainder, or `none` when the alternative fails (then the regex
falls through to the single-character alternative).  `\\.` cannot consume
a newline, and there is no way to backtrack into a success, so a stray
backslash or a missing closing quote fails the whole alternative. -/
def matchDq : List Char → Option (List Char × List Char)
  | [] => none
  | x :: rest =>
    if x = '"' then some (['"'], rest)
    else if x = '\\' then
      match rest with
      | [] => none
      | c :: rest2 =>
        if c = '\n' then none
        else (matchDq rest2).map (fun p => ('\\' :: c :: p.1, p.2))
    else (matchDq rest).map (fun p => (x :: p.1, p.2))

/-- Matching of the single-quoted alternative `[']([^'\\]+|\\.|[']['])*[']`
after its opening quote.  A doubled `''` is preferred as an escaped-quote
item; when the continuation after it cannot reach a closing quote the
regex backtracks and the first quote of the pair closes the literal
instead. -/
def matchSq : List Char → Option (List Char × List Char)
  | [] => none
  | x :: rest =>
    if x = '\'' then
      match rest with
      | [] => some (['\''], [])
      | y :: rest2 =>
        if y = '\'' then
          match matchSq rest2 with
          | some p => some ('\'' :: '\'' :: p.1, p.2)
          | none => some (['\''], y :: rest2)
        else some (['\''], y :: rest2)
    else if x = '\\' then
      match rest with
      | [] => none
      | c :: rest2 =>
        if c = '\n' then none
        else (matchSq rest2).map (fun p => ('\\' :: c :: p.1, p.2))
    else (matchSq rest).map (fun p => (x :: p.1, p.2))

/-- Alternation of the token pattern once leading whitespace is gone:
take the first alternative that matches — identifier, double-quoted
identifier, single-quoted literal, or one arbitrary non-whitespace
character. -/
def nextTokenCore : List Char → Option (String × List Char)
  | [] => none
  | x :: rest =>
    if isIdentStart x then
      some (String.mk (x :: rest.takeWhile isIdentCont), rest.dropWhile isIdentCont)
    else if x = '"' then
      match matchDq rest with
      | some p => some (String.mk ('"' :: p.1), p.2)
      | none => some (String.mk [x], rest)
    else if x = '\'' then
      match matchSq rest with
      | some p => some (String.mk ('\'' :: p.1), p.2)
      | none => some (String.mk [x], rest)
    else some (String.mk [x], rest)

/-- One `token_rc.match(sql, pos)` step: skip whitespace, then match one
token; `none` exactly when nothing but (trailing) whitespace remains. -/
def nextToken (cs : List Char) : Option (String × List Char) :=
  nextTokenCore (cs.dropWhile isWs)

/-- Fuel-driven token loop; `nextToken` consumes at least one character per
token (`nextToken_length`), so fuel `cs.length` never runs out
(`tokenizeF_eq_of_le`). -/
def tokenizeF : Nat → List Char → List String
  | 0, _ => []
  | fuel + 1, cs =>
    match nextToken cs with
    | none => []
    | some (t, r) => t :: tokenizeF fuel r

/-- Python `tokenizer(self, sql)`: the full lexeme sequence of a fragment. -/
def tokenizer (s : String) : List String :=
  tokenizeF s.data.length s.data

/-- Python 2 `str.lower()` on ASCII text: lower-case the letters `A`-`Z`. -/
def lowerStr (s : String) : String := String.mk (s.data.map Char.toLower)

/-- Outcome of running a grammar driver on the remaining token stream:
`ret` — the driver returned normally (with the unconsumed remainder and
the accumulated lists; `parse_sql` then runs its unconditional
`raise Exception("syntax error")`); `eos` — a `tk.next()` call raised
`StopIteration`, which escapes the driver and is caught by `parse_sql`
with the field/value lists as accumulated at that moment; `err` — the
driver raised the syntax error at an explicit token check. -/
inductive DRes where
  | ret (rest fields values : List String)
  | eos (fields values : List String)
  | err
deriving DecidableEq, Repr

/-- The lone `tk.next()` after the value list's closing `)` in
`parse_insert`: End-of-Stream here escapes as the success signal, while an
available token is consumed, discarded, and the driver returns normally. -/
def insertFinal (tks fields values : List String) : DRes :=
  match tks with
  | [] => DRes.eos fields values
  | _ :: rest => DRes.ret rest fields values

/-- The second `while 1` loop of `parse_insert`: `)` stops, `,` is
skipped, anything else is appended to `values`. -/
def insertValueLoop (tks fields values : List String) : DRes :=
  match tks with
  | [] => DRes.eos fields values
  | t :: rest =>
    if t = ")" then insertFinal rest fields values
    else if t = "," then insertValueLoop rest fields values
    else insertValueLoop rest fields (values ++ [t])

/-- The `values` keyword and `(` checks of `parse_insert`. -/
def insertAfterFields (tks fields values : List String) : DRes :=
  match tks with
  | [] => DRes.eos fields values
  | t :: rest =>
    if lowerStr t = "values" then
      match rest with
      | [] => DRes.eos fields values
      | t2 :: rest2 =>
        if t2 = "(" then insertValueLoop rest2 fields values
        else DRes.err
    else DRes.err

/-- The first `while 1` loop of `parse_insert`: append a field token, then
`)` stops, `,` continues, anything else raises. -/
def insertFieldLoop (tks fields values : List String) : DRes :=
  match tks with
  | [] => DRes.eos fields values
  | x :: rest =>
    match rest with
    | [] => DRes.eos (fields ++ [x]) values
    | t :: rest2 =>
      if t = ")" then insertAfterFields rest2 (fields ++ [x]) values
      else if t = "," then insertFieldLoop rest2 (fields ++ [x]) values
      else DRes.err

/-- Python `parse_insert(self, tk, fields, values)`. -/
def parse_insert (tks fields values : List String) : DRes :=
  match tks with
  | [] => DRes.eos fields values
  | t :: rest =>
    if t = "(" then insertFieldLoop rest fields values
    else DRes.err

/-- The second `while 1` loop of `parse_update` (after `where`):
field, `=`, value, then a case-insensitive `and` continues; End-of-Stream
at the `and` check is the documented success point. -/
def updateLoopB (tks fields values : List String) : DRes :=
  match tks with
  | [] => DRes.eos fields values
  | x :: rest =>
    match rest with
    | [] => DRes.eos (fields ++ [x]) values
    | e :: rest2 =>
      if e = "=" then
        match rest2 with
        | [] => DRes.eos (fields ++ [x]) values
        | y :: rest3 =>
          match rest3 with
          | [] => DRes.eos (fields ++ [x]) (values ++ [y])
          | t :: rest4 =>
            if lowerStr t = "and" then updateLoopB rest4 (fields ++ [x]) (values ++ [y])
            else DRes.err
      else DRes.err

/-- The first `while 1` loop of `parse_update`: field, `=`, value, then
`,` continues and a case-insensitive `where` switches to the second loop. -/
def updateLoopA (tks fields values : List String) : DRes :=
  match tks with
  | [] => DRes.eos fields values
  | x :: rest =>
    match rest with
    | [] => DRes.eos (fields ++ [x]) values
    | e :: rest2 =>
      if e = "=" then
        match rest2 with
        | [] => DRes.eos (fields ++ [x]) values
        | y :: rest3 =>
          match rest3 with
          | [] => DRes.eos (fields ++ [x]) (values ++ [y])
          | t :: rest4 =>
            if t = "," then updateLoopA rest4 (fields ++ [x]) (values ++ [y])
            else if lowerStr t = "where" then updateLoopB rest4 (fields ++ [x]) (values ++ [y])
            else DRes.err
      else DRes.err

/-- Python `parse_update(self, tk, fields, values)`. -/
def parse_update (tks fields values : List String) : DRes :=
  updateLoopA tks fields values

/-- Python `parse_delete(self, tk, fields, values)`: a token exactly equal to
`"and"` (the comparison in the source is case-sensitive) is skipped;
otherwise field, `=`, value; End-of-Stream at the start of an iteration
is the success signal. -/
def parse_delete (tks fields values : List String) : DRes :=
  match tks with
  | [] => DRes.eos fields values
  | t :: rest =>
    if t = "and" then parse_delete rest fields values
    else
      match rest with
      | [] => DRes.eos (fields ++ [t]) values
      | e :: rest2 =>
        if e = "=" then
          match rest2 with
          | [] => DRes.eos (fields ++ [t]) values
          | y :: rest3 => parse_delete rest3 (fields ++ [t]) (values ++ [y])
        else DRes.err

/-- Dispatch on the operation tag in `parse_sql`; for a tag outside
`{"I", "U", "D"}` no driver runs and no token is consumed, and control
falls through to the unconditional raise (modelled by `ret` with the
full stream and empty lists). -/
def driverRun (op : String) (tks : List String) : DRes :=
  if op = "I" then parse_insert tks [] []
  else if op = "U" then parse_update tks [] []
  else if op = "D" then parse_delete tks [] []
  else DRes.ret tks [] []

/-- Python slicing `s[1:-1]`: the interior of a quoted token. -/
def inner (s : String) : String := String.mk (s.data.drop 1).dropLast

/-- Python `dict` assignment `data[k] = v`: overwrite an existing key in place,
otherwise append. -/
def dictInsert (d : List (String × Option String)) (k : String) (v : Option String) :
    List (String × Option String) :=
  if d.any (fun p => p.1 = k) then d.map (fun p => if p.1 = k then (k, v) else p)
  else d ++ [(k, v)]

/-- One step of `unquote_data`'s `for k, v in zip(fields, values)` body:
decode the field name. Indexing `k[0]` on an empty string raises
`IndexError`. -/
def unquoteKey (k : String) : Except PErr String :=
  match k.data with
  | [] => Except.error PErr.indexError
  | c :: _ => if c = '"' then unescape (inner k) else Except.ok k

/-- Decode a value token: a 4-character case-insensitive `null` becomes
the null marker, a single-quoted literal is stripped and unescaped,
anything else passes through. -/
def unquoteVal (v : String) : Except PErr (Option String) :=
  if v.length = 4 ∧ lowerStr v = "null" then Except.ok none
  else
    match v.data with
    | [] => Except.error PErr.indexError
    | c :: _ =>
      if c = '\'' then (unescape (inner v)).map some
      else Except.ok (some v)

/-- The loop of `unquote_data` over the zipped pairs. -/
def uqLoop : List (String × String) → List (String × Option String) →
    Except PErr (List (String × Option String))
  | [], data => Except.ok data
  | (k, v) :: rest, data =>
    match unquoteKey k with
    | Except.error e => Except.error e
    | Except.ok k' =>
      match unquoteVal v with
      | Except.error e => Except.error e
      | Except.ok v' => uqLoop rest (dictInsert data k' v')

/-- Python `unquote_data(self, fields, values)`. -/
def unquote_data (fields values : List String) :
    Except PErr (List (String × Option String)) :=
  uqLoop (fields.zip values) []

/-- Python `parse_sql(self, op, sql)`: run the selected driver; only a
`StopIteration` escape (`DRes.eos`) reaches the final sanity check —
a normal driver return or an unknown tag hits the unconditional
`raise Exception("syntax error")`, and a failed token check raised it
already.  On `eos`, empty or unequal field/value lists are rejected,
otherwise the lists are zipped and decoded. -/
def parse_sql (op sql : String) : Except PErr (List (String × Option String)) :=
  match driverRun op (tokenizer sql) with
  | DRes.eos fields values =>
    if fields.length = 0 ∨ fields.length ≠ values.length then Except.error PErr.synError
    else unquote_data fields values
  | _ => Except.error PErr.synError

/-! ### Supporting lemmas: the tokenizer never yields an empty lexeme and
always consumes input, so the fuelled loop is the generator's fixpoint. -/

theorem mk_ne_empty (c : Char) (l : List Char) : String.mk (c :: l) ≠ "" := by
  rw [show ("" : String) = String.mk [] from rfl]
  intro h
  injection h with h'
  exact List.noConfusion h'

theorem dropWhile_length_le (p : Char → Bool) (l : List Char) :
    (l.dropWhile p).length ≤ l.length := by
  induction l with
  | nil => simp [List.dropWhile]
  | cons a l ih =>
    simp only [List.dropWhile]
    split
    · exact Nat.le_succ_of_le ih
    · exact Nat.le_refl _

theorem matchDq_length (cs : List Char) :
    ∀ p, matchDq cs = some p → p.2.length ≤ cs.length := by
  induction cs using matchDq.induct with
  | case1 => intro p h; rw [matchDq.eq_def] at h; simp at h
  | case2 rest2 => intro p h; rw [matchDq.eq_def] at h; simp at h; subst h; simp
  | case3 h' => intro p h; rw [matchDq.eq_def] at h; simp at h
  | case4 rest2 h' => intro p h; rw [matchDq.eq_def] at h; simp at h
  | case5 c rest2 hc h' ih =>
    intro p h
    rw [matchDq.eq_def] at h
    simp only [if_neg h', if_neg hc, reduceIte, Option.map_eq_some'] at h
    obtain ⟨q, hq, rfl⟩ := h
    have := ih q hq
    simp only [List.length_cons]
    omega
  | case6 c rest2 h1 h2 ih =>
    intro p h
    rw [matchDq.eq_def] at h
    simp only [if_neg h1, if_neg h2, Option.map_eq_some'] at h
    obtain ⟨q, hq, rfl⟩ := h
    have := ih q hq
    simp only [List.length_cons]
    omega

theorem matchSq_length (cs : List Char) :
    ∀ p, matchSq cs = some p → p.2.length ≤ cs.length := by
  induction cs using matchSq.induct with
  | case1 => intro p h; rw [matchSq.eq_def] at h; simp at h
  | case2 => intro p h; rw [matchSq.eq_def] at h; simp at h; subst h; simp
  | case3 rest2 q hq ih =>
    intro p h
    rw [matchSq.eq_def] at h
    simp only [reduceIte, hq] at h
    simp at h
    subst h
    have := ih q hq
    simp only [List.length_cons]
    omega
  | case4 rest2 hq ih =>
    intro p h
    rw [matchSq.eq_def] at h
    simp only [reduceIte, hq] at h
    simp at h
    subst h
    simp
  | case5 y rest2 hy =>
    intro p h
    rw [matchSq.eq_def] at h
    simp only [reduceIte, if_neg hy] at h
    simp at h
    subst h
    simp
  | case6 h' => intro p h; rw [matchSq.eq_def] at h; simp at h
  | case7 rest2 h' => intro p h; rw [matchSq.eq_def] at h; simp at h
  | case8 y rest2 hy h' ih =>
    intro p h
    rw [matchSq.eq_def] at h
    simp only [if_neg h', reduceIte, if_neg hy, Option.map_eq_some'] at h
    obtain ⟨q, hq, rfl⟩ := h
    have := ih q hq
    simp only [List.length_cons]
    omega
  | case9 y rest2 h1 h2 ih =>
    intro p h
    rw [matchSq.eq_def] at h
    simp only [if_neg h1, if_neg h2, Option.map_eq_some'] at h
    obtain ⟨q, hq, rfl⟩ := h
    have := ih q hq
    simp only [List.length_cons]
    omega

theorem nextToken_length (cs : List Char) (t : String) (r : List Char)
    (h : nextToken cs = some (t, r)) : r.length < cs.length := by
  unfold nextToken at h
  cases hd : cs.dropWhile isWs with
  | nil => rw [hd] at h; simp [nextTokenCore] at h
  | cons x rest =>
    rw [hd] at h
    simp only [nextTokenCore] at h
    have hlen : rest.length < cs.length := by
      have h1 := dropWhile_length_le isWs cs
      rw [hd] at h1
      simp only [List.length_cons] at h1
      omega
    by_cases hi : isIdentStart x
    · rw [if_pos hi] at h
      simp only [Option.some.injEq, Prod.mk.injEq] at h
      obtain ⟨-, h2⟩ := h
      subst h2
      calc (rest.dropWhile isIdentCont).length ≤ rest.length :=
            dropWhile_length_le isIdentCont rest
        _ < cs.length := hlen
    · rw [if_neg hi] at h
      by_cases hq : x = '"'
      · rw [if_pos hq] at h
        cases hm : matchDq rest with
        | some p =>
          rw [hm] at h
          simp only [Option.some.injEq, Prod.mk.injEq] at h
          obtain ⟨-, h2⟩ := h
          subst h2
          calc p.2.length ≤ rest.length := matchDq_length rest p hm
            _ < cs.length := hlen
        | none =>
          rw [hm] at h
          simp only [Option.some.injEq, Prod.mk.injEq] at h
          obtain ⟨-, h2⟩ := h
          subst h2
          exact hlen
      · rw [if_neg hq] at h
        by_cases hs : x = '\''
        · rw [if_pos hs] at h
          cases hm : matchSq rest with
          | some p =>
            rw [hm] at h
            simp only [Option.some.injEq, Prod.mk.injEq] at h
            obtain ⟨-, h2⟩ := h
            subst h2
            calc p.2.length ≤ rest.length := matchSq_length rest p hm
              _ < cs.length := hlen
          | none =>
            rw [hm] at h
            simp only [Option.some.injEq, Prod.mk.injEq] at h
            obtain ⟨-, h2⟩ := h
            subst h2
            exact hlen
        · rw [if_neg hs] at h
          simp only [Option.some.injEq, Prod.mk.injEq] at h
          obtain ⟨-, h2⟩ := h
          subst h2
          exact hlen

theorem nextToken_ne_empty (cs : List Char) (t : String) (r : List Char)
    (h : nextToken cs = some (t, r)) : t ≠ "" := by
  unfold nextToken at h
  cases hd : cs.dropWhile isWs with
  | nil => rw [hd] at h; simp [nextTokenCore] at h
  | cons x rest =>
    rw [hd] at h
    simp only [nextTokenCore] at h
    by_cases hi : isIdentStart x
    · rw [if_pos hi] at h
      simp only [Option.some.injEq, Prod.mk.injEq] at h
      obtain ⟨h1, -⟩ := h
      subst h1
      exact mk_ne_empty _ _
    · rw [if_neg hi] at h
      by_cases hq : x = '"'
      · rw [if_pos hq] at h
        cases hm : matchDq rest with
        | some p =>
          rw [hm] at h
          simp only [Option.some.injEq, Prod.mk.injEq] at h
          obtain ⟨h1, -⟩ := h
          subst h1
          exact mk_ne_empty _ _
        | none =>
          rw [hm] at h
          simp only [Option.some.injEq, Prod.mk.injEq] at h
          obtain ⟨h1, -⟩ := h
          subst h1
          exact mk_ne_empty _ _
      · rw [if_neg hq] at h
        by_cases hs : x = '\''
        · rw [if_pos hs] at h
          cases hm : matchSq rest with
          | some p =>
            rw [hm] at h
            simp only [Option.some.injEq, Prod.mk.injEq] at h
            obtain ⟨h1, -⟩ := h
            subst h1
            exact mk_ne_empty _ _
          | none =>
            rw [hm] at h
            simp only [Option.some.injEq, Prod.mk.injEq] at h
            obtain ⟨h1, -⟩ := h
            subst h1
            exact mk_ne_empty _ _
        · rw [if_neg hs] at h
          simp only [Option.some.injEq, Prod.mk.injEq] at h
          obtain ⟨h1, -⟩ := h
          subst h1
          exact mk_ne_empty _ _

theorem tokenizeF_eq_of_le :
    ∀ (f1 f2 : Nat) (cs : List Char), cs.length ≤ f1 → cs.length ≤ f2 →
      tokenizeF f1 cs = tokenizeF f2 cs := by
  intro f1
  induction f1 with
  | zero =>
    intro f2 cs h1 h2
    have : cs = [] := List.length_eq_zero.mp (Nat.le_zero.mp h1)
    subst this
    cases f2 with
    | zero => rfl
    | succ f2' => rfl
  | succ f1' ih =>
    intro f2 cs h1 h2
    cases f2 with
    | zero =>
      have : cs = [] := List.length_eq_zero.mp (Nat.le_zero.mp h2)
      subst this
      rfl
    | succ f2' =>
      show (match nextToken cs with
            | none => []
            | some (t, r) => t :: tokenizeF f1' r) =
           (match nextToken cs with
            | none => []
            | some (t, r) => t :: tokenizeF f2' r)
      cases hn : nextToken cs with
      | none => rfl
      | some p =>
        obtain ⟨t, r⟩ := p
        have hr := nextToken_length cs t r hn
        have hr1 : r.length ≤ f1' := by omega
        have hr2 : r.length ≤ f2' := by omega
        simp only []
        rw [ih f2' r hr1 hr2]

/-- The fuelled loop satisfies the generator's natural recurrence, so
`tokenizer` is faithful to the lazy generator: it never cuts the token
sequence short. -/
theorem tokenizeF_fix (cs : List Char) :
    tokenizeF cs.length cs =
      match nextToken cs with
      | none => []
      | some (t, r) => t :: tokenizeF r.length r := by
  cases hl : cs.length with
  | zero =>
    have : cs = [] := List.length_eq_zero.mp hl
    subst this
    rfl
  | succ n =>
    show (match nextToken cs with
          | none => []
          | some (t, r) => t :: tokenizeF n r) = _
    cases hn : nextToken cs with
    | none => rfl
    | some p =>
      obtain ⟨t, r⟩ := p
      have hr := nextToken_length cs t r hn
      rw [hl] at hr
      simp only []
      rw [tokenizeF_eq_of_le n r.length r (by omega) (Nat.le_refl _)]

theorem tokenizeF_ne_empty :
    ∀ (fuel : Nat) (cs : List Char) (t : String), t ∈ tokenizeF fuel cs → t ≠ "" := by
  intro fuel
  induction fuel with
  | zero => intro cs t h; simp [tokenizeF] at h
  | succ f ih =>
    intro cs t h
    unfold tokenizeF at h
    cases hn : nextToken cs with
    | none => rw [hn] at h; simp at h
    | some p =>
      obtain ⟨t0, r⟩ := p
      rw [hn] at h
      simp only [List.mem_cons] at h
      cases h with
      | inl h1 => rw [h1]; exact nextToken_ne_empty cs t0 r hn
      | inr h2 => exact ih r t h2

/-- Every lexeme the tokenizer yields is a non-empty string. -/
theorem tokenizer_ne_empty (s : String) (t : String) (h : t ∈ tokenizer s) : t ≠ "" :=
  tokenizeF_ne_empty s.data.length s.data t h

/-! ### Supporting lemmas: grammar drivers only move tokens of the stream
into the field/value accumulators, so all accumulated tokens are
non-empty strings. -/

/-- Every string of the list is non-empty. -/
def allNE (l : List String) : Prop := ∀ t ∈ l, t ≠ ""

theorem allNE_nil : allNE [] := by intro t h; cases h

theorem allNE_cons {x : String} {l : List String} (h : allNE (x :: l)) :
    x ≠ "" ∧ allNE l :=
  ⟨h x (List.mem_cons_self x l), fun t ht => h t (List.mem_cons_of_mem x ht)⟩

theorem allNE_app {l : List String} {x : String} (h : allNE l) (hx : x ≠ "") :
    allNE (l ++ [x]) := by
  intro t ht
  rcases List.mem_append.mp ht with h1 | h2
  · exact h t h1
  · rw [List.mem_singleton.mp h2]; exact hx

theorem insertFinal_ne (tks f v : List String) (h2 : allNE f) (h3 : allNE v) :
    ∀ f' v', insertFinal tks f v = DRes.eos f' v' → allNE f' ∧ allNE v' := by
  intro f' v' h
  cases tks with
  | nil =>
    simp [insertFinal] at h
    obtain ⟨rfl, rfl⟩ := h
    exact ⟨h2, h3⟩
  | cons x rest => simp [insertFinal] at h

theorem insertValueLoop_ne (tks f v : List String) :
    allNE tks → allNE f → allNE v →
    ∀ f' v', insertValueLoop tks f v = DRes.eos f' v' → allNE f' ∧ allNE v' := by
  induction tks, f, v using insertValueLoop.induct with
  | case1 fields values =>
    intro _ h2 h3 f' v' h
    simp [insertValueLoop] at h
    obtain ⟨rfl, rfl⟩ := h
    exact ⟨h2, h3⟩
  | case2 fields values rest =>
    intro h1 h2 h3 f' v' h
    rw [insertValueLoop.eq_def] at h
    simp at h
    exact insertFinal_ne rest fields values h2 h3 f' v' h
  | case3 fields values rest hne ih =>
    intro h1 h2 h3 f' v' h
    rw [insertValueLoop.eq_def] at h
    simp at h
    exact ih (allNE_cons h1).2 h2 h3 f' v' h
  | case4 fields values head rest hh1 hh2 ih =>
    intro h1 h2 h3 f' v' h
    rw [insertValueLoop.eq_def] at h
    simp only [if_neg hh1, if_neg hh2] at h
    exact ih (allNE_cons h1).2 h2 (allNE_app h3 (allNE_cons h1).1) f' v' h

theorem insertAfterFields_ne (tks f v : List String) (h1 : allNE tks)
    (h2 : allNE f) (h3 : allNE v) :
    ∀ f' v', insertAfterFields tks f v = DRes.eos f' v' → allNE f' ∧ allNE v' := by
  intro f' v' h
  cases tks with
  | nil =>
    simp [insertAfterFields] at h
    obtain ⟨rfl, rfl⟩ := h
    exact ⟨h2, h3⟩
  | cons t rest =>
    rw [insertAfterFields.eq_def] at h
    simp only [] at h
    by_cases hv : lowerStr t = "values"
    · rw [if_pos hv] at h
      cases rest with
      | nil =>
        simp at h
        obtain ⟨rfl, rfl⟩ := h
        exact ⟨h2, h3⟩
      | cons t2 rest2 =>
        by_cases hp : t2 = "("
        · simp only [if_pos hp] at h
          exact insertValueLoop_ne rest2 f v
            (allNE_cons (allNE_cons h1).2).2 h2 h3 f' v' h
        · simp only [if_neg hp] at h
          cases h
    · rw [if_neg hv] at h
      cases h

theorem insertFieldLoop_ne (tks f v : List String) :
    allNE tks → allNE f → allNE v →
    ∀ f' v', insertFieldLoop tks f v = DRes.eos f' v' → allNE f' ∧ allNE v' := by
  induction tks, f, v using insertFieldLoop.induct with
  | case1 fields values =>
    intro _ h2 h3 f' v' h
    simp [insertFieldLoop] at h
    obtain ⟨rfl, rfl⟩ := h
    exact ⟨h2, h3⟩
  | case2 fields values x =>
    intro h1 h2 h3 f' v' h
    simp [insertFieldLoop] at h
    obtain ⟨rfl, rfl⟩ := h
    exact ⟨allNE_app h2 (allNE_cons h1).1, h3⟩
  | case3 fields values x rest2 =>
    intro h1 h2 h3 f' v' h
    rw [insertFieldLoop.eq_def] at h
    simp at h
    exact insertAfterFields_ne rest2 (fields ++ [x]) values
      (allNE_cons (allNE_cons h1).2).2
      (allNE_app h2 (allNE_cons h1).1) h3 f' v' h
  | case4 fields values x rest2 hne ih =>
    intro h1 h2 h3 f' v' h
    rw [insertFieldLoop.eq_def] at h
    simp at h
    exact ih (allNE_cons (allNE_cons h1).2).2
      (allNE_app h2 (allNE_cons h1).1) h3 f' v' h
  | case5 fields values x t rest2 ht1 ht2 =>
    intro h1 h2 h3 f' v' h
    rw [insertFieldLoop.eq_def] at h
    simp only [if_neg ht1, if_neg ht2] at h
    cases h

theorem parse_insert_ne (tks f v : List String) (h1 : allNE tks)
    (h2 : allNE f) (h3 : allNE v) :
    ∀ f' v', parse_insert tks f v = DRes.eos f' v' → allNE f' ∧ allNE v' := by
  intro f' v' h
  cases tks with
  | nil =>
    simp [parse_insert] at h
    obtain ⟨rfl, rfl⟩ := h
    exact ⟨h2, h3⟩
  | cons t rest =>
    rw [parse_insert.eq_def] at h
    simp only [] at h
    by_cases hp : t = "("
    · rw [if_pos hp] at h
      exact insertFieldLoop_ne rest f v (allNE_cons h1).2 h2 h3 f' v' h
    · rw [if_neg hp] at h
      cases h

theorem updateLoopB_ne (tks f v : List String) :
    allNE tks → allNE f → allNE v →
    ∀ f' v', updateLoopB tks f v = DRes.eos f' v' → allNE f' ∧ allNE v' := by
  induction tks, f, v using updateLoopB.induct with
  | case1 fields values =>
    intro _ h2 h3 f' v' h
    simp [updateLoopB] at h
    obtain ⟨rfl, rfl⟩ := h
    exact ⟨h2, h3⟩
  | case2 fields values x =>
    intro h1 h2 h3 f' v' h
    simp [updateLoopB] at h
    obtain ⟨rfl, rfl⟩ := h
    exact ⟨allNE_app h2 (allNE_cons h1).1, h3⟩
  | case3 fields values x =>
    intro h1 h2 h3 f' v' h
    simp [updateLoopB] at h
    obtain ⟨rfl, rfl⟩ := h
    exact ⟨allNE_app h2 (allNE_cons h1).1, h3⟩
  | case4 fields values x y =>
    intro h1 h2 h3 f' v' h
    simp [updateLoopB] at h
    obtain ⟨rfl, rfl⟩ := h
    exact ⟨allNE_app h2 (allNE_cons h1).1,
      allNE_app h3 (allNE_cons (allNE_cons (allNE_cons h1).2).2).1⟩
  | case5 fields values x y t rest4 hand ih =>
    intro h1 h2 h3 f' v' h
    rw [updateLoopB.eq_def] at h
    simp only [hand, reduceIte] at h
    exact ih (allNE_cons (allNE_cons (allNE_cons (allNE_cons h1).2).2).2).2
      (allNE_app h2 (allNE_cons h1).1)
      (allNE_app h3 (allNE_cons (allNE_cons (allNE_cons h1).2).2).1) f' v' h
  | case6 fields values x y t rest4 hand =>
    intro h1 h2 h3 f' v' h
    rw [updateLoopB.eq_def] at h
    simp only [if_neg hand, reduceIte] at h
    simp at h
  | case7 fields values x e rest2 he =>
    intro h1 h2 h3 f' v' h
    rw [updateLoopB.eq_def] at h
    simp only [if_neg he] at h
    cases h

theorem updateLoopA_ne (tks f v : List String) :
    allNE tks → allNE f → allNE v →
    ∀ f' v', updateLoopA tks f v = DRes.eos f' v' → allNE f' ∧ allNE v' := by
  induction tks, f, v using updateLoopA.induct with
  | case1 fields values =>
    intro _ h2 h3 f' v' h
    simp [updateLoopA] at h
    obtain ⟨rfl, rfl⟩ := h
    exact ⟨h2, h3⟩
  | case2 fields values x =>
    intro h1 h2 h3 f' v' h
    simp [updateLoopA] at h
    obtain ⟨rfl, rfl⟩ := h
    exact ⟨allNE_app h2 (allNE_cons h1).1, h3⟩
  | case3 fields values x =>
    intro h1 h2 h3 f' v' h
    simp [updateLoopA] at h
    obtain ⟨rfl, rfl⟩ := h
    exact ⟨allNE_app h2 (allNE_cons h1).1, h3⟩
  | case4 fields values x y =>
    intro h1 h2 h3 f' v' h
    simp [updateLoopA] at h
    obtain ⟨rfl, rfl⟩ := h
    exact ⟨allNE_app h2 (allNE_cons h1).1,
      allNE_app h3 (allNE_cons (allNE_cons (allNE_cons h1).2).2).1⟩
  | case5 fields values x y rest4 ih =>
    intro h1 h2 h3 f' v' h
    rw [updateLoopA.eq_def] at h
    simp at h
    exact ih (allNE_cons (allNE_cons (allNE_cons (allNE_cons h1).2).2).2).2
      (allNE_app h2 (allNE_cons h1).1)
      (allNE_app h3 (allNE_cons (allNE_cons (allNE_cons h1).2).2).1) f' v' h
  | case6 fields values x y t rest4 hc hw =>
    intro h1 h2 h3 f' v' h
    rw [updateLoopA.eq_def] at h
    simp only [if_neg hc, hw, reduceIte] at h
    exact updateLoopB_ne rest4 (fields ++ [x]) (values ++ [y])
      (allNE_cons (allNE_cons (allNE_cons (allNE_cons h1).2).2).2).2
      (allNE_app h2 (allNE_cons h1).1)
      (allNE_app h3 (allNE_cons (allNE_cons (allNE_cons h1).2).2).1) f' v' h
  | case7 fields values x y t rest4 hc hw =>
    intro h1 h2 h3 f' v' h
    rw [updateLoopA.eq_def] at h
    simp only [if_neg hc, if_neg hw, reduceIte] at h
    simp at h
  | case8 fields values x e rest2 he =>
    intro h1 h2 h3 f' v' h
    rw [updateLoopA.eq_def] at h
    simp only [if_neg he] at h
    cases h

theorem parse_delete_ne (tks f v : List String) :
    allNE tks → allNE f → allNE v →
    ∀ f' v', parse_delete tks f v = DRes.eos f' v' → allNE f' ∧ allNE v' := by
  induction tks, f, v using parse_delete.induct with
  | case1 fields values =>
    intro _ h2 h3 f' v' h
    simp [parse_delete] at h
    obtain ⟨rfl, rfl⟩ := h
    exact ⟨h2, h3⟩
  | case2 fields values rest ih =>
    intro h1 h2 h3 f' v' h
    rw [parse_delete.eq_def] at h
    simp at h
    exact ih (allNE_cons h1).2 h2 h3 f' v' h
  | case3 fields values t ht =>
    intro h1 h2 h3 f' v' h
    rw [parse_delete.eq_def] at h
    simp only [if_neg ht] at h
    simp at h
    obtain ⟨rfl, rfl⟩ := h
    exact ⟨allNE_app h2 (allNE_cons h1).1, h3⟩
  | case4 fields values t ht =>
    intro h1 h2 h3 f' v' h
    rw [parse_delete.eq_def] at h
    simp only [if_neg ht] at h
    simp at h
    obtain ⟨rfl, rfl⟩ := h
    exact ⟨allNE_app h2 (allNE_cons h1).1, h3⟩
  | case5 fields values t ht y rest3 ih =>
    intro h1 h2 h3 f' v' h
    rw [parse_delete.eq_def] at h
    simp only [if_neg ht] at h
    simp at h
    exact ih (allNE_cons (allNE_cons (allNE_cons h1).2).2).2
      (allNE_app h2 (allNE_cons h1).1)
      (allNE_app h3 (allNE_cons (allNE_cons (allNE_cons h1).2).2).1) f' v' h
  | case6 fields values t ht e rest2 he =>
    intro h1 h2 h3 f' v' h
    rw [parse_delete.eq_def] at h
    simp only [if_neg ht, if_neg he] at h
    cases h

/-- Whatever driver the tag selects, a `StopIteration` escape hands
`parse_sql` field/value lists whose entries all came from the token
stream, hence are non-empty. -/
theorem driverRun_ne (op : String) (tks : List String) (h1 : allNE tks) :
    ∀ f' v', driverRun op tks = DRes.eos f' v' → allNE f' ∧ allNE v' := by
  intro f' v' h
  unfold driverRun at h
  by_cases hI : op = "I"
  · rw [if_pos hI] at h
    exact parse_insert_ne tks [] [] h1 allNE_nil allNE_nil f' v' h
  · rw [if_neg hI] at h
    by_cases hU : op = "U"
    · rw [if_pos hU] at h
      exact updateLoopA_ne tks [] [] h1 allNE_nil allNE_nil f' v' h
    · rw [if_neg hU] at h
      by_cases hD : op = "D"
      · rw [if_pos hD] at h
        exact parse_delete_ne tks [] [] h1 allNE_nil allNE_nil f' v' h
      · rw [if_neg hD] at h
        cases h

/-! ### Supporting lemmas: step equations for the escape-decoder scan and
the classification of its failures. -/

theorem exMap_error {α β : Type} {f : α → β} {r : Except PErr α} {e : PErr}
    (h : r.map f = Except.error e) : r = Except.error e := by
  cases r with
  | ok a => simp [Except.map] at h
  | error e' => simpa [Except.map] using h

/-- A character with an entry in `_esc_map` is never an octal digit. -/
theorem escMap_not_oct {a : Char} {e : Char} (h : escMap a = some e) :
    isOct a = false := by
  unfold escMap at h
  split_ifs at h with h1 h2 h3 h4 h5 h6 h7 h8 <;>
    first
      | (subst h1; decide)
      | (subst h2; decide)
      | (subst h3; decide)
      | (subst h4; decide)
      | (subst h5; decide)
      | (subst h6; decide)
      | (subst h7; decide)
      | (subst h8; decide)

/-- A character with an entry in `_esc_map` is not a newline. -/
theorem escMap_not_nl {a : Char} {e : Char} (h : escMap a = some e) :
    a ≠ '\n' := by
  intro hn
  subst hn
  simp [escMap] at h

theorem unescapeL_octal {a b c : Char} (rest : List Char)
    (h : (isOct a && isOct b && isOct c) = true) (hle : octTriple a b c ≤ 255) :
    unescapeL ('\\' :: a :: b :: c :: rest) =
      (unescapeL rest).map (fun r => Char.ofNat (octTriple a b c) :: r) := by
  rw [unescapeL.eq_def]
  simp [h, hle]

theorem unescapeL_octal_over {a b c : Char} (rest : List Char)
    (h : (isOct a && isOct b && isOct c) = true) (hgt : 255 < octTriple a b c) :
    unescapeL ('\\' :: a :: b :: c :: rest) = Except.error PErr.valueError := by
  rw [unescapeL.eq_def]
  simp [h]
  omega

theorem unescapeL_esc {a e : Char} (rest : List Char) (h : escMap a = some e) :
    unescapeL ('\\' :: a :: rest) = (unescapeL rest).map (fun r => e :: r) := by
  have hoct : isOct a = false := escMap_not_oct h
  have hnl : a ≠ '\n' := escMap_not_nl h
  rw [unescapeL.eq_def]
  cases rest with
  | nil => simp [if_neg hnl, h]
  | cons b rest2 =>
    cases rest2 with
    | nil => simp [if_neg hnl, h]
    | cons c rest3 => simp [hoct, if_neg hnl, h]

theorem unescapeL_key {a : Char} (rest : List Char) (h : escMap a = none)
    (hnl : a ≠ '\n')
    (hno : ∀ b c r3, rest = b :: c :: r3 → (isOct a && isOct b && isOct c) = false) :
    unescapeL ('\\' :: a :: rest) = Except.error PErr.keyError := by
  rw [unescapeL.eq_def]
  cases rest with
  | nil => simp [if_neg hnl, h]
  | cons b rest2 =>
    cases rest2 with
    | nil => simp [if_neg hnl, h]
    | cons c rest3 => simp [hno b c rest3 rfl, if_neg hnl, h]

theorem unescapeL_bsnl (rest : List Char) :
    unescapeL ('\\' :: '\n' :: rest) =
      (unescapeL rest).map (fun r => '\\' :: '\n' :: r) := by
  rw [unescapeL.eq_def]
  cases rest with
  | nil => simp
  | cons b rest2 =>
    cases rest2 with
    | nil => simp
    | cons c rest3 => simp [show isOct '\n' = false by decide]

theorem unescapeL_plain {x : Char} (rest : List Char) (h : x ≠ '\\') :
    unescapeL (x :: rest) = (unescapeL rest).map (fun r => x :: r) := by
  rw [unescapeL.eq_def]
  simp [if_neg h]

/-- The only failures of the escape-decoder scan are the lookup failure
(`KeyError`) and the out-of-range failure (`ValueError`); in particular it
never raises the parser's syntax error or an `IndexError`. -/
theorem unescapeL_err (l : List Char) :
    ∀ e, unescapeL l = Except.error e → e = PErr.keyError ∨ e = PErr.valueError := by
  induction l using unescapeL.induct with
  | case1 => intro e h; simp [unescapeL] at h
  | case2 => intro e h; simp [unescapeL] at h
  | case3 a b c rest3 hoct hle ih =>
    intro e h
    rw [unescapeL_octal rest3 hoct hle] at h
    exact ih e (exMap_error h)
  | case4 a b c rest3 hoct hgt =>
    intro e h
    rw [unescapeL_octal_over rest3 hoct (by omega)] at h
    injection h with h'
    exact Or.inr h'.symm
  | case5 b c rest3 hoct ih =>
    intro e h
    rw [unescapeL_bsnl (b :: c :: rest3)] at h
    exact ih e (exMap_error h)
  | case6 a b c rest3 hoct hnl e' hsome ih =>
    intro e h
    rw [unescapeL_esc (b :: c :: rest3) hsome] at h
    exact ih e (exMap_error h)
  | case7 a b c rest3 hoct hnl hnone =>
    intro e h
    rw [unescapeL_key (b :: c :: rest3) hnone hnl
      (by intro b' c' r' heq; injection heq with e1 heq'; injection heq' with e2 _
          subst e1; subst e2; simpa using hoct)] at h
    injection h with h'
    exact Or.inl h'.symm
  | case8 rest2 hshape ih =>
    intro e h
    rw [unescapeL_bsnl rest2] at h
    exact ih e (exMap_error h)
  | case9 a rest2 hshape hnl e' hsome ih =>
    intro e h
    rw [unescapeL_esc rest2 hsome] at h
    exact ih e (exMap_error h)
  | case10 a rest2 hshape hnl hnone =>
    intro e h
    rw [unescapeL_key rest2 hnone hnl
      (by intro b' c' r' heq; exact absurd heq (by intro hq; exact hshape b' c' r' hq))] at h
    injection h with h'
    exact Or.inl h'.symm
  | case11 x rest hx ih =>
    intro e h
    rw [unescapeL_plain rest hx] at h
    exact ih e (exMap_error h)

theorem unescape_ne_index (s : String) :
    unescape s ≠ Except.error PErr.indexError := by
  intro h
  unfold unescape at h
  have h2 := exMap_error h
  rcases unescapeL_err s.data _ h2 with h3 | h3 <;> exact PErr.noConfusion h3

theorem unquoteKey_ne_index {k : String} (hk : k ≠ "") :
    unquoteKey k ≠ Except.error PErr.indexError := by
  intro h
  unfold unquoteKey at h
  cases k with
  | mk d =>
    cases d with
    | nil => exact hk rfl
    | cons c rest =>
      simp only [] at h
      by_cases hc : c = '"'
      · rw [if_pos hc] at h
        exact unescape_ne_index _ h
      · rw [if_neg hc] at h
        cases h

theorem unquoteVal_ne_index {v : String} (hv : v ≠ "") :
    unquoteVal v ≠ Except.error PErr.indexError := by
  intro h
  unfold unquoteVal at h
  by_cases hn : v.length = 4 ∧ lowerStr v = "null"
  · rw [if_pos hn] at h; cases h
  · rw [if_neg hn] at h
    cases v with
    | mk d =>
      cases d with
      | nil => exact hv rfl
      | cons c rest =>
        simp only [] at h
        by_cases hc : c = '\''
        · rw [if_pos hc] at h
          have h2 := exMap_error h
          exact unescape_ne_index _ h2
        · rw [if_neg hc] at h
          cases h

theorem uqLoop_ne_index :
    ∀ (pairs : List (String × String)) (data : List (String × Option String)),
      (∀ p ∈ pairs, p.1 ≠ "" ∧ p.2 ≠ "") →
      uqLoop pairs data ≠ Except.error PErr.indexError := by
  intro pairs
  induction pairs with
  | nil => intro data hp h; simp [uqLoop] at h
  | cons p rest ih =>
    intro data hp h
    obtain ⟨k, v⟩ := p
    have hkv := hp (k, v) (List.mem_cons_self _ _)
    unfold uqLoop at h
    cases hk : unquoteKey k with
    | error e =>
      rw [hk] at h
      simp only [] at h
      injection h with h'
      subst h'
      exact unquoteKey_ne_index hkv.1 hk
    | ok k' =>
      rw [hk] at h
      simp only [] at h
      cases hv : unquoteVal v with
      | error e =>
        rw [hv] at h
        simp only [] at h
        injection h with h'
        subst h'
        exact unquoteVal_ne_index hkv.2 hv
      | ok v' =>
        rw [hv] at h
        simp only [] at h
        exact ih (dictInsert data k' v')
          (fun q hq => hp q (List.mem_cons_of_mem _ hq)) h

theorem unquote_data_ne_index (f v : List String) (hf : allNE f) (hv : allNE v) :
    unquote_data f v ≠ Except.error PErr.indexError := by
  refine uqLoop_ne_index (f.zip v) [] ?_
  intro p hp
  obtain ⟨a, b⟩ := p
  have hab := List.of_mem_zip hp
  exact ⟨hf a hab.1, hv b hab.2⟩

/-- Inversion for a successful parse: the driver must have escaped with
`StopIteration` (`DRes.eos`), and the accumulated lists passed the final
sanity check. -/
theorem parse_ok_eos (op sql : String) (d : List (String × Option String))
    (h : parse_sql op sql = Except.ok d) :
    ∃ f v, driverRun op (tokenizer sql) = DRes.eos f v ∧
      f.length ≠ 0 ∧ f.length = v.length := by
  unfold parse_sql at h
  cases hr : driverRun op (tokenizer sql) with
  | eos f v =>
    rw [hr] at h
    simp only [] at h
    by_cases hc : f.length = 0 ∨ f.length ≠ v.length
    · rw [if_pos hc] at h; cases h
    · push_neg at hc
      exact ⟨f, v, rfl, hc.1, hc.2⟩
  | ret r f v => rw [hr] at h; cases h
  | err => rw [hr] at h; cases h

/-- The parser can never fail with an `IndexError`: every token it stores
is non-empty, so the result assembler's first-character inspections are
always in bounds. -/
theorem parse_sql_ne_index (op sql : String) :
    parse_sql op sql ≠ Except.error PErr.indexError := by
  intro h
  unfold parse_sql at h
  cases hr : driverRun op (tokenizer sql) with
  | eos f v =>
    rw [hr] at h
    simp only [] at h
    by_cases hc : f.length = 0 ∨ f.length ≠ v.length
    · rw [if_pos hc] at h
      injection h with h'
      exact PErr.noConfusion h'
    · rw [if_neg hc] at h
      have hfv := driverRun_ne op (tokenizer sql)
        (fun t ht => tokenizer_ne_empty sql t ht) f v hr
      exact unquote_data_ne_index f v hfv.1 hfv.2 h
  | ret r f v =>
    rw [hr] at h
    injection h with h'
    exact PErr.noConfusion h'
  | err =>
    rw [hr] at h
    injection h with h'
    exact PErr.noConfusion h'

/-! ### The claims -/

/-- C1, counterexample: the Update driver succeeds on `"a = 'x'"`, a
fragment with no `where` clause at all.  End-of-Stream here occurs at the
first loop's `,`/`where` separator check — not at the second loop's `and`
keyword check, which is the only success point the claim allows for
Update (the token stream contains nothing lowercasing to `where`, so the
second loop is never even reached). -/
theorem spec_c1_cex :
    parse_sql "U" "a = 'x'" = Except.ok [("a", some "x")] ∧
    driverRun "U" (tokenizer "a = 'x'") = DRes.eos ["a"] ["'x'"] ∧
    "where" ∉ (tokenizer "a = 'x'").map lowerStr :=
  ⟨by rfl, by rfl, by decide⟩

/-- C1, amended: a driver returns successfully only upon End-of-Stream,
and a token failing an explicit equality/keyword check raises the single
generic syntax error; but End-of-Stream is accepted as the success signal
at *any* consumption point at which the accumulated field and value lists
are non-empty and of equal length — the final sanity check, not the
documented EOS point, is what separates success from failure (e.g. Update
succeeds without any `where` clause). -/
theorem spec_c1 :
    (∀ op sql d, parse_sql op sql = Except.ok d →
      ∃ f v, driverRun op (tokenizer sql) = DRes.eos f v ∧
        f.length ≠ 0 ∧ f.length = v.length) ∧
    (∀ op sql, driverRun op (tokenizer sql) = DRes.err →
      parse_sql op sql = Except.error PErr.synError) ∧
    parse_sql "U" "a = 'x'" = Except.ok [("a", some "x")] := by
  refine ⟨parse_ok_eos, ?_, by rfl⟩
  intro op sql h
  unfold parse_sql
  rw [h]

/-- C1, witness: the amended claim applied to a concrete successful
Insert parse. -/
theorem spec_c1_witness :
    ∃ f v, driverRun "I" (tokenizer "(a) values ('b')") = DRes.eos f v ∧
      f.length ≠ 0 ∧ f.length = v.length :=
  spec_c1.1 "I" "(a) values ('b')" [("a", some "b")] (by rfl)

/-- C2: every successful parse comes from a `StopIteration` escape whose
accumulated field and value lists have equal length, at least 1. -/
theorem spec_c2 (op sql : String) (d : List (String × Option String))
    (h : parse_sql op sql = Except.ok d) :
    ∃ f v, driverRun op (tokenizer sql) = DRes.eos f v ∧
      f.length = v.length ∧ 1 ≤ f.length := by
  obtain ⟨f, v, h1, h2, h3⟩ := parse_ok_eos op sql d h
  exact ⟨f, v, h1, h3, by omega⟩

/-- C2, witness: the invariant at a concrete Delete parse. -/
theorem spec_c2_witness :
    ∃ f v, driverRun "D" (tokenizer "pk1 = '1' and pk2 = '2'") = DRes.eos f v ∧
      f.length = v.length ∧ 1 ≤ f.length :=
  spec_c2 "D" "pk1 = '1' and pk2 = '2'"
    [("pk1", some "1"), ("pk2", some "2")] (by rfl)

/-- C3, counterexample: an Insert fragment with exactly one extra token
after the value list's closing `)` does **not** parse successfully — the
driver consumes the extra token and returns normally, upon which
`parse_sql` runs its unconditional `raise Exception("syntax error")`. -/
theorem spec_c3_cex :
    tokenizer "(a) values ('b') x" =
      ["(", "a", ")", "values", "(", "'b'", ")", "x"] ∧
    parse_sql "I" "(a) values ('b') x" = Except.error PErr.synError :=
  ⟨by rfl, by rfl⟩

/-- C3, amended: after the value list's closing `)` the Insert driver
makes exactly one further token request; a token obtained there is
consumed and discarded but forces a normal driver return, which
`parse_sql` turns into the generic syntax error — so success requires
End-of-Stream to occur *at* that request, i.e. no extra token at all. -/
theorem spec_c3 :
    (∀ (t : String) (rest f v : List String),
      insertFinal (t :: rest) f v = DRes.ret rest f v) ∧
    (∀ f v, insertFinal [] f v = DRes.eos f v) ∧
    (∀ op sql r f v, driverRun op (tokenizer sql) = DRes.ret r f v →
      parse_sql op sql = Except.error PErr.synError) ∧
    parse_sql "I" "(a) values ('b')" = Except.ok [("a", some "b")] := by
  refine ⟨fun t rest f v => rfl, fun f v => rfl, ?_, by rfl⟩
  intro op sql r f v h
  unfold parse_sql
  rw [h]

/-- C3, witness: the amended claim applied to the concrete extra-token
fragment, whose driver run returns normally with the extra token gone. -/
theorem spec_c3_witness :
    parse_sql "I" "(a) values ('b') x" = Except.error PErr.synError :=
  spec_c3.2.2.1 "I" "(a) values ('b') x" [] ["a"] ["'b'"] (by rfl)

/-- C4, counterexample: `AND` does case-insensitively equal `and`, yet the
Delete driver does not skip it — the lowercase fragment parses while the
uppercase variant raises the syntax error, so fragments differing only in
the letter case of their `and` separators do not parse to the same
result. -/
theorem spec_c4_cex :
    lowerStr "AND" = "and" ∧
    parse_sql "D" "pk1 = '1' and pk2 = '2'" =
      Except.ok [("pk1", some "1"), ("pk2", some "2")] ∧
    parse_sql "D" "pk1 = '1' AND pk2 = '2'" = Except.error PErr.synError :=
  ⟨by rfl, by rfl, by rfl⟩

/-- C4, amended: the Delete driver skips a separator token only when it is
*exactly* the lowercase string `and` (the source compares `t == "and"`
without `.lower()`); an `and` in any other letter case is treated as a
field token, so changing the case of a separator changes the outcome. -/
theorem spec_c4 :
    (∀ tks f v, parse_delete ("and" :: tks) f v = parse_delete tks f v) ∧
    parse_sql "D" "pk1 = '1' and pk2 = '2'" =
      Except.ok [("pk1", some "1"), ("pk2", some "2")] ∧
    parse_sql "D" "pk1 = '1' AND pk2 = '2'" = Except.error PErr.synError := by
  refine ⟨?_, by rfl, by rfl⟩
  intro tks f v
  rw [parse_delete.eq_def]
  simp

/-- C4, witness: the amended claim's skip equation at a concrete stream. -/
theorem spec_c4_witness :
    parse_delete ["and", "pk", "=", "'1'"] [] [] =
      parse_delete ["pk", "=", "'1'"] [] [] :=
  spec_c4.1 ["pk", "=", "'1'"] [] []

/-- C5: the malformed Insert fragment `"(col1,col2) values ('a'"` raises
exactly the generic syntax error (two fields but one value fail the final
sanity check) — and a failing parse never also yields a mapping: the
error return *is* the whole result, so accumulated fields/values are
discarded. -/
theorem spec_c5 :
    parse_sql "I" "(col1,col2) values ('a'" = Except.error PErr.synError ∧
    (∀ op sql e, parse_sql op sql = Except.error e →
      ∀ d, parse_sql op sql ≠ Except.ok d) := by
  refine ⟨by rfl, ?_⟩
  intro op sql e he d hd
  rw [he] at hd
  cases hd

/-- C5, witness: no mapping coexists with the concrete failure. -/
theorem spec_c5_witness :
    parse_sql "I" "(col1,col2) values ('a'" ≠
      Except.ok [("col1", some "a"), ("col2", some "a")] :=
  spec_c5.2 "I" "(col1,col2) values ('a'" PErr.synError (by rfl)
    [("col1", some "a"), ("col2", some "a")]

/-- C6: the documented Update fragment parses to exactly
`col1 ↦ "x"`, `col2 ↦ null`, `pk ↦ "1"`. -/
theorem spec_c6 :
    parse_sql "U" "col1 = 'x', col2 = null where pk = '1'" =
      Except.ok [("col1", some "x"), ("col2", none), ("pk", some "1")] := by rfl

/-- C7, counterexample: `\400` is a backslash followed by exactly three
octal digits (value 256), but Python 2 `chr(256)` raises `ValueError`, so
`unescape` fails instead of producing the character with code 256. -/
theorem spec_c7_cex :
    unescape "\\400" = Except.error PErr.valueError ∧
    (isOct '4' && isOct '0' && isOct '0') = true ∧
    octTriple '4' '0' '0' = 256 :=
  ⟨by rfl, by rfl, by rfl⟩

/-- C7, amended: `unescape` replaces each backslash followed by exactly
three octal digits *whose base-8 value is at most 255* with the character
of that code (octal escapes above 255 raise an uncaught range failure
instead), and each backslash followed by a single character from the
fixed table with the corresponding character; in particular
`unescape("a\tb")` is `a<TAB>b` and `unescape("\101")` is `"A"`. -/
theorem spec_c7 :
    (∀ (a b c : Char) (rest : List Char),
      (isOct a && isOct b && isOct c) = true → octTriple a b c ≤ 255 →
      unescapeL ('\\' :: a :: b :: c :: rest) =
        (unescapeL rest).map (fun r => Char.ofNat (octTriple a b c) :: r)) ∧
    (∀ (a b c : Char) (rest : List Char),
      (isOct a && isOct b && isOct c) = true → 255 < octTriple a b c →
      unescapeL ('\\' :: a :: b :: c :: rest) = Except.error PErr.valueError) ∧
    (∀ (a e : Char) (rest : List Char), escMap a = some e →
      unescapeL ('\\' :: a :: rest) = (unescapeL rest).map (fun r => e :: r)) ∧
    unescape "a\\tb" = Except.ok "a\tb" ∧
    unescape "\\101" = Except.ok "A" :=
  ⟨fun a b c rest h hle => unescapeL_octal rest h hle,
   fun a b c rest h hgt => unescapeL_octal_over rest h hgt,
   fun a e rest h => unescapeL_esc rest h,
   by rfl, by rfl⟩

/-- C7, witness: the octal rule applied to the concrete escape `\101`. -/
theorem spec_c7_witness :
    unescapeL ['\\', '1', '0', '1'] =
      (unescapeL []).map (fun r => Char.ofNat (octTriple '1' '0' '1') :: r) :=
  spec_c7.1 '1' '0' '1' [] (by rfl) (by decide)

/-- C8, counterexample: a newline is a single character that is neither in
the fixed escape table nor the start of three octal digits, yet
`unescape` on backslash-newline succeeds (the regex's `.` does not match
a newline, so the backslash is simply left in place) instead of failing
with the lookup failure the claim requires. -/
theorem spec_c8_cex :
    unescape "\\\n" = Except.ok "\\\n" ∧
    escMap '\n' = none ∧
    isOct '\n' = false :=
  ⟨by rfl, by rfl, by rfl⟩

/-- C8, amended: whenever a backslash *with no backslash anywhere earlier
in the string* is followed by a single non-newline character that is
neither in the fixed escape table nor the start of three octal digits,
`unescape` fails with the uncaught lookup failure (`KeyError`), an error
kind distinct from the declared generic syntax error; the parser does not
catch or convert it, as the concrete Delete fragment `a = '\q'` shows. -/
theorem spec_c8 :
    (∀ (p : List Char) (a : Char) (s : List Char),
      '\\' ∉ p → escMap a = none → a ≠ '\n' →
      (∀ b c r3, s = b :: c :: r3 → (isOct a && isOct b && isOct c) = false) →
      unescapeL (p ++ '\\' :: a :: s) = Except.error PErr.keyError) ∧
    parse_sql "D" "a = '\\q'" = Except.error PErr.keyError ∧
    PErr.keyError ≠ PErr.synError := by
  refine ⟨?_, by rfl, by decide⟩
  intro p a s hp hnone hnl hno
  induction p with
  | nil => exact unescapeL_key s hnone hnl hno
  | cons x p' ih =>
    have hx : x ≠ '\\' := fun hq => hp (by rw [hq]; exact List.mem_cons_self _ _)
    have hp' : '\\' ∉ p' := fun hq => hp (List.mem_cons_of_mem _ hq)
    rw [List.cons_append, unescapeL_plain _ hx, ih hp']
    rfl

/-- C8, witness: the amended claim at the concrete input `\q`. -/
theorem spec_c8_witness :
    unescapeL ['\\', 'q'] = Except.error PErr.keyError :=
  spec_c8.1 [] 'q' [] (by decide) (by rfl) (by decide)
    (fun b c r3 h => by cases h)

/-- C9: an operation tag outside `{"I", "U", "D"}` runs no driver and
consumes no token (the dispatch falls through with the full stream
untouched and empty accumulators), and the parse raises the single
generic syntax error. -/
theorem spec_c9 (op sql : String) (h1 : op ≠ "I") (h2 : op ≠ "U") (h3 : op ≠ "D") :
    driverRun op (tokenizer sql) = DRes.ret (tokenizer sql) [] [] ∧
    parse_sql op sql = Except.error PErr.synError := by
  have hd : driverRun op (tokenizer sql) = DRes.ret (tokenizer sql) [] [] := by
    unfold driverRun
    rw [if_neg h1, if_neg h2, if_neg h3]
  refine ⟨hd, ?_⟩
  unfold parse_sql
  rw [hd]

/-- C9, witness: the unknown tag `"X"` on a well-formed fragment. -/
theorem spec_c9_witness :
    driverRun "X" (tokenizer "a = 'b'") = DRes.ret (tokenizer "a = 'b'") [] [] ∧
    parse_sql "X" "a = 'b'" = Except.error PErr.synError :=
  spec_c9 "X" "a = 'b'" (by decide) (by decide) (by decide)

/-- C10: every lexeme the tokenizer yields is a non-empty string, so the
result assembler's inspections of the first character of each field and
value token are always in bounds: no run of the parser can fail with an
`IndexError`. -/
theorem spec_c10 :
    (∀ s t, t ∈ tokenizer s → t ≠ "") ∧
    (∀ op sql, parse_sql op sql ≠ Except.error PErr.indexError) :=
  ⟨tokenizer_ne_empty, parse_sql_ne_index⟩

/-- C10, witness: non-emptiness of a concrete lexeme. -/
theorem spec_c10_witness : ("pk1" : String) ≠ "" :=
  spec_c10.1 "pk1 = '1'" "pk1" (by decide)

/-! ### Sanity checks of the embedding on further concrete runs
(the remaining acceptance examples of the specification, plus the
regex-backtracking corner cases of the quoted-literal alternative). -/

theorem sanity_tokenizer_quotes :
    tokenizer "a \"co\\\"l\" = 'a''b'" = ["a", "\"co\\\"l\"", "=", "'a''b'"] ∧
    tokenizer "'a''" = ["'a'", "'"] ∧
    tokenizer "'a''x" = ["'a'", "'", "x"] ∧
    tokenizer "_f9 x" = ["_", "f9", "x"] ∧
    tokenizer "  \t " = [] :=
  ⟨by rfl, by rfl, by rfl, by rfl, by rfl⟩

theorem sanity_insert_examples :
    parse_sql "I" "(col1,col2) values ('a','b')" =
      Except.ok [("col1", some "a"), ("col2", some "b")] ∧
    parse_sql "I" "(col1,col2) values ('a', null)" =
      Except.ok [("col1", some "a"), ("col2", none)] :=
  ⟨by rfl, by rfl⟩

theorem sanity_quoted_field :
    parse_sql "U" "\"co\\\"l\" = 'x'" = Except.ok [("co\"l", some "x")] := by rfl

theorem sanity_unescape_scan :
    unescape "\\\\x" = Except.ok "\\x" ∧
    unescape "\\" = Except.ok "\\" ∧
    unescape "\\7x" = Except.error PErr.keyError :=
  ⟨by rfl, by rfl, by rfl⟩
